import Mathlib

/-!
Verification of the task-tracker authentication subsystem.

Shallow embedding of the repository's auth and task handlers:
  - `AuthMw`    models `server/src/handlers/auth_middleware.ts` (the HMAC token codec):
                `generateToken`, `verifySignature`, `verifyToken`, `extractTokenFromHeader`.
  - `Login`     models `server/src/handlers/login.ts`: `verifyPassword`, its local
                `generateToken`, and the `login` handler.
  - `Register`  models the PBKDF2-based `register` handler.
  - `Middleware` models the `protectedProcedure` wrapper in the server entry point.
  - `Tasks`     models `get_task`, `update_task`, `delete_task`.

JavaScript strings are modelled by their UTF-8 byte sequences (`Str := List Nat`),
so `Buffer.from(str)` is the identity of the model.  Node's `crypto` primitives
(SHA-256, HMAC-SHA-256) are implemented concretely over byte lists; machine words
are `Nat` reduced mod `2 ^ 32`.  The database is an explicit list of rows; clock
and randomness are explicit parameters.
-/

set_option maxRecDepth 1000000

deriving instance DecidableEq for Except

namespace TaskTracker

/-- A JavaScript string, as its UTF-8 byte sequence. -/
abbrev Str := List Nat

/-- Bytes of an ASCII string literal (used for concrete inputs). -/
def ascii (s : String) : Str := s.data.map Char.toNat

/-! ## SHA-256 (FIPS 180-4) over byte lists, words as `Nat` mod `2 ^ 32` -/

/-- Truncation to a 32-bit word. -/
def w32 (n : Nat) : Nat := n % 4294967296

/-- Right-rotation of a 32-bit word (`x >>> n | x << (32 - n)` truncated). -/
def rotr32 (n x : Nat) : Nat := x / 2 ^ n + x % 2 ^ n * 2 ^ (32 - n)

/-- Bitwise complement within 32 bits. -/
def not32 (x : Nat) : Nat := 4294967295 - x

/-- SHA-256 `Ch`. -/
def ch (x y z : Nat) : Nat := (x &&& y) ^^^ (not32 x &&& z)

/-- SHA-256 `Maj`. -/
def maj (x y z : Nat) : Nat := (x &&& y) ^^^ (x &&& z) ^^^ (y &&& z)

/-- SHA-256 `Σ₀`. -/
def bsig0 (x : Nat) : Nat := rotr32 2 x ^^^ rotr32 13 x ^^^ rotr32 22 x

/-- SHA-256 `Σ₁`. -/
def bsig1 (x : Nat) : Nat := rotr32 6 x ^^^ rotr32 11 x ^^^ rotr32 25 x

/-- SHA-256 `σ₀`. -/
def ssig0 (x : Nat) : Nat := rotr32 7 x ^^^ rotr32 18 x ^^^ x / 2 ^ 3

/-- SHA-256 `σ₁`. -/
def ssig1 (x : Nat) : Nat := rotr32 17 x ^^^ rotr32 19 x ^^^ x / 2 ^ 10

/-- The 64 SHA-256 round constants (FIPS 180-4, in decimal). -/
def sha256K : List Nat :=
  [1116352408, 1899447441, 3049323471, 3921009573, 961987163, 1508970993,
   2453635748, 2870763221, 3624381080, 310598401, 607225278, 1426881987,
   1925078388, 2162078206, 2614888103, 3248222580, 3835390401, 4022224774,
   264347078, 604807628, 770255983, 1249150122, 1555081692, 1996064986,
   2554220882, 2821834349, 2952996808, 3210313671, 3336571891, 3584528711,
   113926993, 338241895, 666307205, 773529912, 1294757372, 1396182291,
   1695183700, 1986661051, 2177026350, 2456956037, 2730485921, 2820302411,
   3259730800, 3345764771, 3516065817, 3600352804, 4094571909, 275423344,
   430227734, 506948616, 659060556, 883997877, 958139571, 1322822218,
   1537002063, 1747873779, 1955562222, 2024104815, 2227730452, 2361852424,
   2428436474, 2756734187, 3204031479, 3329325298]

/-- Big-endian 8-byte encoding of a 64-bit length field. -/
def u64beBytes (n : Nat) : List Nat :=
  [n / 2 ^ 56 % 256, n / 2 ^ 48 % 256, n / 2 ^ 40 % 256, n / 2 ^ 32 % 256,
   n / 2 ^ 24 % 256, n / 2 ^ 16 % 256, n / 2 ^ 8 % 256, n % 256]

/-- Big-endian 4-byte encoding of a 32-bit word. -/
def u32beBytes (x : Nat) : List Nat :=
  [x / 2 ^ 24 % 256, x / 2 ^ 16 % 256, x / 2 ^ 8 % 256, x % 256]

/-- SHA-256 padding: `0x80`, zeros, then the 64-bit big-endian bit length. -/
def padMsg (msg : List Nat) : List Nat :=
  msg ++ [128] ++ List.replicate ((119 - msg.length % 64) % 64) 0 ++ u64beBytes (8 * msg.length)

/-- Big-endian word from four bytes. -/
def beWord (a b c d : Nat) : Nat := ((a * 256 + b) * 256 + c) * 256 + d

/-- The sixteen 32-bit words of a 64-byte block. -/
def toWords : List Nat → List Nat
  | a :: b :: c :: d :: rest => beWord a b c d :: toWords rest
  | _ => []

/-- One message-schedule extension step: append `W[t]` from the last 16 words. -/
def schedStep (w : List Nat) : List Nat :=
  let n := w.length
  w ++ [w32 (ssig1 (w.getD (n - 2) 0) + w.getD (n - 7) 0 + ssig0 (w.getD (n - 15) 0) + w.getD (n - 16) 0)]

/-- The full 64-word message schedule from a block's 16 words. -/
def schedule (w16 : List Nat) : List Nat :=
  (List.range 48).foldl (fun w _ => schedStep w) w16

/-- The eight 32-bit working registers. -/
structure Hs where
  a : Nat
  b : Nat
  c : Nat
  d : Nat
  e : Nat
  f : Nat
  g : Nat
  h : Nat

/-- The SHA-256 initial hash value (FIPS 180-4, in decimal). -/
def sha256IV : Hs :=
  ⟨1779033703, 3144134277, 1013904242, 2773480762, 1359893119, 2600822924, 528734635, 1541459225⟩

/-- One SHA-256 compression round on registers, given `(K[t], W[t])`. -/
def sha256Round (s : Hs) (kw : Nat × Nat) : Hs :=
  let t1 := w32 (s.h + bsig1 s.e + ch s.e s.f s.g + kw.1 + kw.2)
  let t2 := w32 (bsig0 s.a + maj s.a s.b s.c)
  ⟨w32 (t1 + t2), s.a, s.b, s.c, w32 (s.d + t1), s.e, s.f, s.g⟩

/-- Compression of one 64-byte block into the chaining state. -/
def compressBlock (s : Hs) (block : List Nat) : Hs :=
  let w := schedule (toWords block)
  let r := (sha256K.zip w).foldl sha256Round s
  ⟨w32 (s.a + r.a), w32 (s.b + r.b), w32 (s.c + r.c), w32 (s.d + r.d),
   w32 (s.e + r.e), w32 (s.f + r.f), w32 (s.g + r.g), w32 (s.h + r.h)⟩

/-- Fuel-driven block splitter (structural recursion, so the kernel can reduce it;
the fuel is the list length, which strictly dominates the 64-byte steps). -/
def chunks64F : Nat → List Nat → List (List Nat)
  | 0, _ => []
  | _ + 1, [] => []
  | fuel + 1, a :: rest => ((a :: rest).take 64) :: chunks64F fuel ((a :: rest).drop 64)

/-- The padded message cut into 64-byte blocks. -/
def chunks64 (l : List Nat) : List (List Nat) := chunks64F l.length l

/-- SHA-256 digest (32 bytes) of a byte list. -/
def sha256 (msg : List Nat) : List Nat :=
  let s := (chunks64 (padMsg msg)).foldl compressBlock sha256IV
  u32beBytes s.a ++ u32beBytes s.b ++ u32beBytes s.c ++ u32beBytes s.d ++
  u32beBytes s.e ++ u32beBytes s.f ++ u32beBytes s.g ++ u32beBytes s.h

/-- HMAC-SHA-256 (FIPS 198-1) with a 64-byte block size, as `crypto.createHmac('sha256', key)`. -/
def hmacSha256 (key msg : List Nat) : List Nat :=
  let k0 := if key.length > 64 then sha256 key else key
  let kp := k0 ++ List.replicate (64 - k0.length) 0
  sha256 (kp.map (fun b => b ^^^ 92) ++ sha256 (kp.map (fun b => b ^^^ 54) ++ msg))

/-! ## Hex encoding and Node's forgiving hex decoding -/

/-- Lowercase hex digit character code of a value below 16. -/
def hexDigitL (d : Nat) : Nat := if d < 10 then 48 + d else 87 + d

/-- Lowercase hex string of a byte list, as `Buffer.toString('hex')` / `digest('hex')`. -/
def hexLower (l : List Nat) : Str := l.flatMap (fun b => [hexDigitL (b / 16), hexDigitL (b % 16)])

/-- Value of a hex digit character (upper or lower case), `none` on a non-hex character. -/
def hexVal (c : Nat) : Option Nat :=
  if 48 ≤ c ∧ c ≤ 57 then some (c - 48)
  else if 97 ≤ c ∧ c ≤ 102 then some (c - 87)
  else if 65 ≤ c ∧ c ≤ 70 then some (c - 55)
  else none

/-- Node's `Buffer.from(str, 'hex')`: consume hex pairs, stopping at the first
invalid pair and dropping a trailing odd character. -/
def hexDecode : Str → List Nat
  | a :: b :: rest =>
    match hexVal a, hexVal b with
    | some x, some y => (x * 16 + y) :: hexDecode rest
    | _, _ => []
  | _ => []

/-! ## Base64 and base64url

`auth_middleware.ts` produces base64url by standard base64 followed by the
substitutions `+` → `-`, `/` → `_` and deletion of `=` padding; `login.ts` uses
Node's `'base64url'` encoding directly, which is the same byte-level function.
`base64UrlEncode` below composes the standard-alphabet character encoding with
the substitution; padding is never emitted. -/

/-- Standard base64 alphabet character of a sextet. -/
def b64Char (s : Nat) : Nat :=
  if s < 26 then 65 + s
  else if s < 52 then 71 + s
  else if s < 62 then s - 4
  else if s = 62 then 43
  else 47

/-- The `+` → `-`, `/` → `_` substitution of `.replace(/\+/g, '-').replace(/\//g, '_')`. -/
def urlSafeChar (c : Nat) : Nat := if c = 43 then 45 else if c = 95 then 95 else if c = 47 then 95 else c

/-- Base64url character of a sextet: standard alphabet then URL-safe substitution. -/
def b64uc (s : Nat) : Nat := urlSafeChar (b64Char s)

/-- Unpadded base64url encoding of a byte list (standard base64 with `=` stripped
and the URL-safe substitution applied). -/
def base64UrlEncode : List Nat → Str
  | [] => []
  | [a] => [b64uc (a / 4), b64uc (a % 4 * 16)]
  | [a, b] => [b64uc (a / 4), b64uc (a % 4 * 16 + b / 16), b64uc (b % 16 * 4)]
  | a :: b :: c :: rest =>
    b64uc (a / 4) :: b64uc (a % 4 * 16 + b / 16) :: b64uc (b % 16 * 4 + c / 64) :: b64uc (c % 64) ::
    base64UrlEncode rest

/-- Standard base64 encoding with `=` padding, as `Buffer.toString('base64')`
(used by the register handler's unsigned token). -/
def b64PadEncode : List Nat → Str
  | [] => []
  | [a] => [b64Char (a / 4), b64Char (a % 4 * 16), 61, 61]
  | [a, b] => [b64Char (a / 4), b64Char (a % 4 * 16 + b / 16), b64Char (b % 16 * 4), 61]
  | a :: b :: c :: rest =>
    b64Char (a / 4) :: b64Char (a % 4 * 16 + b / 16) :: b64Char (b % 16 * 4 + c / 64) :: b64Char (c % 64) ::
    b64PadEncode rest

/-- The `-` → `+`, `_` → `/` reverse substitution of `base64UrlDecode`. -/
def urlUnsafeChar (c : Nat) : Nat := if c = 45 then 43 else if c = 95 then 47 else c

/-- Sextet value of a standard base64 character (0 for junk, which Node skips;
only alphabet characters occur in verified positions). -/
def b64Val (c : Nat) : Nat :=
  if 65 ≤ c ∧ c ≤ 90 then c - 65
  else if 97 ≤ c ∧ c ≤ 122 then c - 71
  else if 48 ≤ c ∧ c ≤ 57 then c + 4
  else if c = 43 then 62
  else if c = 47 then 63
  else 0

/-- Standard base64 decoding of an unpadded string in 4-character groups, with the
2- and 3-character tails Node accepts after its re-padding step. -/
def b64Decode : Str → List Nat
  | [a, b] => [b64Val a * 4 + b64Val b / 16]
  | [a, b, c] => [b64Val a * 4 + b64Val b / 16, b64Val b % 16 * 16 + b64Val c / 4]
  | a :: b :: c :: d :: rest =>
    (b64Val a * 4 + b64Val b / 16) :: (b64Val b % 16 * 16 + b64Val c / 4) ::
    (b64Val c % 4 * 64 + b64Val d) :: b64Decode rest
  | _ => []

/-- `base64UrlDecode` of `auth_middleware.ts`: re-pad (a no-op at byte level),
substitute back to the standard alphabet, and base64-decode. -/
def base64UrlDecode (s : Str) : List Nat := b64Decode (s.map urlUnsafeChar)

/-! ## JavaScript values and byte-level JSON -/

/-- A JSON value as produced by `JSON.parse` on token payloads (flat values only;
nested structures never occur in the verified paths). Numbers are integers. -/
inductive JVal where
  | num (n : Int)
  | str (s : Str)
  | bool (b : Bool)
  | null
deriving DecidableEq, Repr

/-- A parsed JSON object: an association list of key bytes to values. -/
abbrev JObj := List (Str × JVal)

/-- Property access `o.k`: the first binding of the key, if any. -/
def jlookup (o : JObj) (k : Str) : Option JVal :=
  match o.find? (fun p => p.1 == k) with
  | some p => some p.2
  | none => none

/-- JavaScript truthiness of an optional property value (`undefined`, `0`, `''`,
`false` and `null` are falsy). -/
def truthy : Option JVal → Bool
  | none => false
  | some (.num n) => n ≠ 0
  | some (.str s) => s ≠ []
  | some (.bool b) => b
  | some .null => false

/-- JavaScript `ToNumber` on the values reachable past the truthiness gate:
numbers are themselves, booleans are 0/1, `null` is 0, and a string is its
decimal integer value or NaN (`none`). -/
def jsToNumber : JVal → Option Int
  | .num n => some n
  | .bool b => some (if b then 1 else 0)
  | .null => some 0
  | .str s =>
    if s = [] then some 0
    else if s.all (fun c => 48 ≤ c ∧ c ≤ 57) then
      some (s.foldl (fun acc c => acc * 10 + (c - 48 : Int)) 0)
    else none

/-- JavaScript `v < n` with a number on the right: numeric comparison, false on NaN. -/
def jsLtNum (v : JVal) (n : Int) : Bool :=
  match jsToNumber v with
  | some m => m < n
  | none => false

/-- JavaScript `v > n` with a number on the right: numeric comparison, false on NaN. -/
def jsGtNum (v : JVal) (n : Int) : Bool :=
  match jsToNumber v with
  | some m => n < m
  | none => false

/-- `JSON.stringify` escaping of one byte of a string: `"` and `\` get a
backslash, the five short escapes apply, other control bytes become `\u00XX`,
everything else is emitted verbatim. -/
def jsonEscapeByte (b : Nat) : List Nat :=
  if b = 34 then [92, 34]
  else if b = 92 then [92, 92]
  else if b = 8 then [92, 98]
  else if b = 9 then [92, 116]
  else if b = 10 then [92, 110]
  else if b = 12 then [92, 102]
  else if b = 13 then [92, 114]
  else if b < 32 then [92, 117, 48, 48, hexDigitL (b / 16), hexDigitL (b % 16)]
  else [b]

/-- `JSON.stringify` escaping of a whole string body. -/
def jsonEscape (s : Str) : Str := s.flatMap jsonEscapeByte

/-- A JSON string literal: quote, escaped body, quote. -/
def jsonStrLit (s : Str) : Str := 34 :: jsonEscape s ++ [34]

/-- Fuel-driven decimal printer (structural recursion for kernel reducibility). -/
def natReprF : Nat → Nat → Str
  | 0, _ => []
  | fuel + 1, n => if n < 10 then [48 + n] else natReprF fuel (n / 10) ++ [48 + n % 10]

/-- Decimal representation of a natural number, as `JSON.stringify` prints it. -/
def natRepr (n : Nat) : Str := natReprF (n + 1) n

/-- One object member `"key":value`. -/
def jsonMember (key : Str) (val : Str) : Str := jsonStrLit key ++ 58 :: val

/-- Comma-joined member list, as `JSON.stringify` separates members. -/
def joinComma : List Str → Str
  | [] => []
  | [x] => x
  | x :: y :: zs => x ++ 44 :: joinComma (y :: zs)

/-- A compact JSON object from pre-rendered members (byte 123 is `{`, 125 is `}`). -/
def jsonObj (members : List Str) : Str := 123 :: joinComma members ++ [125]

/-! ### A JSON parser for the flat-object fragment

Models `JSON.parse` on the payloads reachable in the verified paths: a single
compact object whose values are integers, strings, `true`, `false` or `null`.
Inputs outside this fragment (nested values, whitespace, floats) make the model
parser fail; no theorem below quantifies over that region. -/

/-- The single-character escapes `\" \\ \/ \b \t \n \f \r`. -/
def escSimple (e : Nat) : Option Nat :=
  if e = 34 then some 34 else if e = 92 then some 92 else if e = 47 then some 47
  else if e = 98 then some 8 else if e = 116 then some 9 else if e = 110 then some 10
  else if e = 102 then some 12 else if e = 114 then some 13 else none

/-- Parse the body of a string literal after the opening quote, undoing
`jsonEscape`; returns the body and the remainder after the closing quote. -/
def parseStringBody : Str → Option (Str × Str)
  | [] => none
  | c :: rest =>
    if c = 34 then some ([], rest)
    else if c = 92 then
      match rest with
      | 117 :: h1 :: h2 :: h3 :: h4 :: rest' =>
        match hexVal h1, hexVal h2, hexVal h3, hexVal h4 with
        | some a, some b, some x, some d =>
          match parseStringBody rest' with
          | some (s, r) => some ((((a * 16 + b) * 16 + x) * 16 + d) :: s, r)
          | none => none
        | _, _, _, _ => none
      | e :: rest2 =>
        match escSimple e with
        | some b =>
          match parseStringBody rest2 with
          | some (s, r) => some (b :: s, r)
          | none => none
        | none => none
      | [] => none
    else
      match parseStringBody rest with
      | some (s, r) => some (c :: s, r)
      | none => none

/-- Accumulator loop of decimal parsing: consume digits, stop at a non-digit. -/
def parseDigitsAcc (acc : Nat) : Str → Nat × Str
  | [] => (acc, [])
  | c :: rest =>
    if 48 ≤ c ∧ c ≤ 57 then parseDigitsAcc (acc * 10 + (c - 48)) rest else (acc, c :: rest)

/-- Parse a run of decimal digits; fails on an empty run. -/
def parseDigits : Str → Option (Nat × Str)
  | [] => none
  | c :: rest => if 48 ≤ c ∧ c ≤ 57 then some (parseDigitsAcc 0 (c :: rest)) else none

/-- Parse one JSON value of the flat fragment. -/
def parseValue (s : Str) : Option (JVal × Str) :=
  match s with
  | [] => none
  | c :: rest =>
    if c = 34 then
      match parseStringBody rest with
      | some (body, r) => some (.str body, r)
      | none => none
    else if c = 45 then
      match parseDigits rest with
      | some (n, r) => some (.num (-(n : Int)), r)
      | none => none
    else if 48 ≤ c ∧ c ≤ 57 then
      match parseDigits (c :: rest) with
      | some (n, r) => some (.num (n : Int), r)
      | none => none
    else if (c :: rest).take 4 = ascii "true" then some (.bool true, (c :: rest).drop 4)
    else if (c :: rest).take 5 = ascii "false" then some (.bool false, (c :: rest).drop 5)
    else if (c :: rest).take 4 = ascii "null" then some (.null, (c :: rest).drop 4)
    else none

/-- Parse the members of an object after `{`, given fuel bounding the member count. -/
def parseMembers (fuel : Nat) (s : Str) : Option (JObj × Str) :=
  match fuel with
  | 0 => none
  | fuel + 1 =>
    match s with
    | 34 :: rest =>
      match parseStringBody rest with
      | some (key, r1) =>
        match r1 with
        | 58 :: r2 =>
          match parseValue r2 with
          | some (v, r3) =>
            match r3 with
            | 44 :: r4 =>
              match parseMembers fuel r4 with
              | some (o, r5) => some ((key, v) :: o, r5)
              | none => none
            | 125 :: r4 => some ([(key, v)], r4)
            | _ => none
          | none => none
        | _ => none
      | none => none
    | _ => none

/-- `JSON.parse` on the flat-object fragment: a compact object consuming the
whole input. -/
def parseJson (s : Str) : Option JObj :=
  match s with
  | 123 :: 125 :: rest => if rest = [] then some [] else none
  | 123 :: rest =>
    match parseMembers (rest.length + 1) rest with
    | some (o, r) => if r = [] then some o else none
    | none => none
  | _ => none

/-! ### Rendering of parsed objects (the link between `JSON.stringify` output
and what `parseJson` returns) -/

/-- Rendering of a flat JSON value, matching `JSON.stringify` on that value. -/
def renderJVal : JVal → Str
  | .num n => if n < 0 then 45 :: natRepr (-n).toNat else natRepr n.toNat
  | .str s => jsonStrLit s
  | .bool true => ascii "true"
  | .bool false => ascii "false"
  | .null => ascii "null"

/-- Rendering of one object member. -/
def renderMember (m : Str × JVal) : Str := jsonMember m.1 (renderJVal m.2)

/-- Rendering of a whole flat object. -/
def renderObj (o : JObj) : Str := jsonObj (o.map renderMember)

/-- All bytes of a modelled string are actual bytes (below 256). -/
def allLt256 (s : Str) : Prop := ∀ b ∈ s, b < 256

/-- A value the renderer prints in the exact form the parser reads back
(integral values are nonnegative in every object the code serializes). -/
def renderableVal : JVal → Prop
  | .num n => 0 ≤ n
  | _ => True

/-! ## Splitting on `.` (JavaScript `String.split('.')`) -/

/-- `token.split('.')` at byte level (byte 46 is `.`). -/
def splitDot : Str → List Str
  | [] => [[]]
  | c :: rest =>
    if c = 46 then [] :: splitDot rest
    else
      match splitDot rest with
      | [] => [[c]]
      | t :: ts => (c :: t) :: ts

/-! ## Domain data model -/

/-- The auth failure taxonomy, one constructor per thrown message. -/
inductive Err where
  | missingSecret
  | invalidFormat
  | invalidSignature
  | invalidPayload
  | expired
  | notYetValid
  | userNotFound
  | identityMismatch
  | invalidCredentials
  | conflict
  | rangeError
deriving DecidableEq, Repr

/-- A row of the `users` table; timestamps are epoch numbers. -/
structure UserRow where
  id : Nat
  email : Str
  password_hash : Str
  name : Str
  created_at : Nat
  updated_at : Nat
deriving DecidableEq, Repr

/-- The public user projection (no `password_hash`). -/
structure UserPub where
  id : Nat
  email : Str
  name : Str
  created_at : Nat
  updated_at : Nat
deriving DecidableEq, Repr

/-- Projection of a row to its public shape. -/
def UserRow.pub (u : UserRow) : UserPub :=
  ⟨u.id, u.email, u.name, u.created_at, u.updated_at⟩

/-- Request-scoped authenticated identity. -/
structure AuthContext where
  user : UserPub
deriving DecidableEq, Repr

/-- The wire shape returned by `register` and `login`. -/
structure AuthResponse where
  user : UserPub
  token : Str
deriving DecidableEq, Repr

/-! ## `auth_middleware.ts`: the HMAC token codec -/

namespace AuthMw

/-- The claims of `JwtPayload`. -/
structure JwtPayload where
  userId : Nat
  email : Str
  iat : Nat
  exp : Nat
deriving DecidableEq, Repr

/-- `JSON.stringify({alg: 'HS256', typ: 'JWT'})`. -/
def jwtHeader : Str :=
  jsonObj [jsonMember (ascii "alg") (jsonStrLit (ascii "HS256")),
           jsonMember (ascii "typ") (jsonStrLit (ascii "JWT"))]

/-- `JSON.stringify` of the payload object, in its literal key order. -/
def payloadJson (p : JwtPayload) : Str :=
  jsonObj [jsonMember (ascii "userId") (natRepr p.userId),
           jsonMember (ascii "email") (jsonStrLit p.email),
           jsonMember (ascii "iat") (natRepr p.iat),
           jsonMember (ascii "exp") (natRepr p.exp)]

/-- The object `JSON.parse` yields back from `payloadJson` (field order as
serialized). -/
def objOfClaims (p : JwtPayload) : JObj :=
  [(ascii "userId", .num p.userId), (ascii "email", .str p.email),
   (ascii "iat", .num p.iat), (ascii "exp", .num p.exp)]

/-- `createSignature`: base64url of the HMAC-SHA-256 of the data under the secret. -/
def createSignature (data secret : Str) : Str :=
  base64UrlEncode (hmacSha256 secret data)

/-- JavaScript falsiness of `process.env['JWT_SECRET']`: absent or empty. -/
def secretFalsy : Option Str → Bool
  | none => true
  | some s => s.isEmpty

/-- The serialize-and-sign tail of `generateToken`, factored over an arbitrary
payload (the handler instantiates it with its freshly built claims). -/
def encodeClaims (p : JwtPayload) (secret : Str) : Str :=
  let encodedHeader := base64UrlEncode jwtHeader
  let encodedPayload := base64UrlEncode (payloadJson p)
  let data := encodedHeader ++ 46 :: encodedPayload
  data ++ 46 :: createSignature data secret

/-- `generateToken`: requires a configured secret, then signs claims with
`iat = now`, `exp = now + 24h` (seconds). -/
def generateToken (env : Option Str) (user : UserPub) (nowSec : Nat) : Except Err Str :=
  if secretFalsy env then .error .missingSecret
  else .ok (encodeClaims ⟨user.id, user.email, nowSec, nowSec + 24 * 60 * 60⟩ (env.getD []))

/-- `verifySignature`: recompute the signature over `header.payload` and compare
with `===` (format already validated by the caller). -/
def verifySignature (token secret : Str) : Bool :=
  let parts := splitDot token
  let header := parts.getD 0 []
  let payload := parts.getD 1 []
  let signature := parts.getD 2 []
  signature == createSignature (header ++ 46 :: payload) secret

/-- The codec part of `verifyToken` (lines before the database lookup): secret
check, 3-segment format, signature, payload parse, required-field truthiness
(JavaScript `!payload.x` — a present-but-falsy field also fails), expiry and
issued-at checks; returns the parsed payload object. -/
def decodeClaims (env : Option Str) (nowSec : Nat) (token : Str) : Except Err JObj :=
  if secretFalsy env then .error .missingSecret
  else
    let jwtSecret := env.getD []
    let parts := splitDot token
    if parts.length ≠ 3 then .error .invalidFormat
    else if ¬ verifySignature token jwtSecret then .error .invalidSignature
    else
      match parseJson (base64UrlDecode (parts.getD 1 [])) with
      | none => .error .invalidPayload
      | some payload =>
        if ¬ (truthy (jlookup payload (ascii "userId")) && truthy (jlookup payload (ascii "email"))
              && truthy (jlookup payload (ascii "exp")) && truthy (jlookup payload (ascii "iat"))) then
          .error .invalidPayload
        else if jsLtNum ((jlookup payload (ascii "exp")).getD .null) nowSec then .error .expired
        else if jsGtNum ((jlookup payload (ascii "iat")).getD .null) nowSec then .error .notYetValid
        else .ok payload

/-- `verifyToken`: the codec checks, then the user lookup by the `userId` claim
and the email-match check, producing the public projection. -/
def verifyToken (dbUsers : List UserRow) (env : Option Str) (nowSec : Nat) (token : Str) :
    Except Err AuthContext :=
  match decodeClaims env nowSec token with
  | .error e => .error e
  | .ok payload =>
    let uid := jsToNumber ((jlookup payload (ascii "userId")).getD .null)
    match dbUsers.find? (fun u => some (u.id : Int) == uid) with
    | none => .error .userNotFound
    | some user =>
      match jlookup payload (ascii "email") with
      | some (.str s) => if user.email == s then .ok ⟨user.pub⟩ else .error .identityMismatch
      | _ => .error .identityMismatch

/-- `extractTokenFromHeader`: requires the literal prefix `"Bearer "`, returns
the remainder (possibly empty); an absent or falsy header yields `none`. -/
def extractTokenFromHeader (authHeader : Option Str) : Option Str :=
  match authHeader with
  | none => none
  | some s =>
    if s.isEmpty || !(ascii "Bearer ").isPrefixOf s then none
    else some (s.drop 7)

end AuthMw

/-! ## `login.ts`: SHA-256 password check and the divergent token generator -/

namespace Login

/-- The silent fallback secret of `process.env['JWT_SECRET'] || 'default-secret-key'`. -/
def defaultSecretKey : Str := ascii "default-secret-key"

/-- `||`-resolution of the secret: an absent or empty environment value is
silently replaced by the default. -/
def resolveSecret : Option Str → Str
  | none => defaultSecretKey
  | some s => if s.isEmpty then defaultSecretKey else s

/-- `JSON.stringify` of the spread payload `{userId, email, exp, iat}` in its
literal key order (`exp` in seconds, `iat` in milliseconds). -/
def loginPayloadJson (userId : Nat) (email : Str) (expSec iatMs : Nat) : Str :=
  jsonObj [jsonMember (ascii "userId") (natRepr userId),
           jsonMember (ascii "email") (jsonStrLit email),
           jsonMember (ascii "exp") (natRepr expSec),
           jsonMember (ascii "iat") (natRepr iatMs)]

/-- The login handler's `generateToken`: base64url header and body, then a
*plain* SHA-256 digest of `header + "." + body + "." + secret` as base64url —
not an HMAC.  `iatVal` is the realized value of `Date.now() + Math.random()`
(modelled at integer draws of the random addend). -/
def generateToken (env : Option Str) (userId : Nat) (email : Str) (nowMs iatVal : Nat) : Str :=
  let header := base64UrlEncode AuthMw.jwtHeader
  let body := base64UrlEncode (loginPayloadJson userId email (nowMs / 1000 + 24 * 60 * 60) iatVal)
  let secret := resolveSecret env
  let signature := base64UrlEncode (sha256 (header ++ 46 :: body ++ 46 :: secret))
  header ++ 46 :: body ++ 46 :: signature

/-- `crypto.timingSafeEqual`: throws `RangeError` when the buffers' byte lengths
differ, otherwise compares contents. -/
def timingSafeEqual (a b : List Nat) : Except Err Bool :=
  if a.length ≠ b.length then .error .rangeError else .ok (a == b)

/-- `verifyPassword`: bare SHA-256 hex of the plaintext, an early length check on
the *strings*, then `timingSafeEqual` of the hex-decoded buffers (which can
throw, since Node's hex decoding truncates at invalid characters). -/
def verifyPassword (password hash : Str) : Except Err Bool :=
  let hashedInput := hexLower (sha256 password)
  if hashedInput.length ≠ hash.length then .ok false
  else timingSafeEqual (hexDecode hashedInput) (hexDecode hash)

/-- The `login` handler: lookup by email, password check (exceptions from
`timingSafeEqual` propagate), unified invalid-credentials error, token issue. -/
def login (dbUsers : List UserRow) (env : Option Str) (email password : Str) (nowMs iatVal : Nat) :
    Except Err AuthResponse :=
  match dbUsers.find? (fun u => u.email == email) with
  | none => .error .invalidCredentials
  | some user =>
    match verifyPassword password user.password_hash with
    | .error e => .error e
    | .ok false => .error .invalidCredentials
    | .ok true => .ok ⟨user.pub, generateToken env user.id user.email nowMs iatVal⟩

end Login

/-! ## The PBKDF2 `register` handler -/

namespace Register

/-- `JSON.stringify({userId, email, exp})` of the register handler's unsigned
token payload (`exp` in milliseconds). -/
def registerTokenPayload (userId : Nat) (email : Str) (expMs : Nat) : Str :=
  jsonObj [jsonMember (ascii "userId") (natRepr userId),
           jsonMember (ascii "email") (jsonStrLit email),
           jsonMember (ascii "exp") (natRepr expMs)]

/-- Result of a successful registration: the response and the updated table. -/
structure RegOutcome where
  response : AuthResponse
  db : List UserRow
deriving DecidableEq, Repr

/-- The `register` handler.  `salt` is the drawn `randomBytes(16)` and `derived`
the 64-byte `pbkdf2(password, salt, 10000, 64, 'sha512')` output; both enter the
model as parameters since only their hex-encoded *lengths* matter to any claim.
The stored hash is `hex(salt) + ':' + hex(derived)` and the returned token is
plain (unsigned) base64 of the payload JSON. -/
def register (dbUsers : List UserRow) (email _password nm : Str) (salt derived : List Nat)
    (newId nowMs : Nat) : Except Err RegOutcome :=
  if (dbUsers.find? (fun u => u.email == email)).isSome then .error .conflict
  else
    let hashedPassword := hexLower salt ++ 58 :: hexLower derived
    let user : UserRow := ⟨newId, email, hashedPassword, nm, nowMs, nowMs⟩
    let token := b64PadEncode (registerTokenPayload newId email (nowMs + 24 * 60 * 60 * 1000))
    .ok ⟨⟨user.pub, token⟩, dbUsers ++ [user]⟩

end Register

/-! ## The server's `protectedProcedure` middleware -/

namespace Middleware

/-- The two middleware rejections: `'Authentication token required'` and
`'Invalid or expired token'`. -/
inductive MwErr where
  | tokenRequired
  | invalidToken
deriving DecidableEq, Repr

/-- `protectedProcedure`: extract the bearer token, reject a falsy token (both a
missing header *and* an extracted empty string hit the `!token` check), then
verify, mapping any verification failure to the invalid-token rejection. -/
def protectedAuth (dbUsers : List UserRow) (env : Option Str) (nowSec : Nat)
    (authHeader : Option Str) : Except MwErr AuthContext :=
  match AuthMw.extractTokenFromHeader authHeader with
  | none => .error .tokenRequired
  | some token =>
    if token.isEmpty then .error .tokenRequired
    else
      match AuthMw.verifyToken dbUsers env nowSec token with
      | .ok auth => .ok auth
      | .error _ => .error .invalidToken

end Middleware

/-! ## Owner-scoped task handlers -/

namespace Tasks

/-- Task priority. -/
inductive Priority where
  | low
  | medium
  | high
deriving DecidableEq, Repr

/-- A row of the `tasks` table. -/
structure TaskRow where
  id : Nat
  user_id : Nat
  title : Str
  description : Option Str
  due_date : Option Nat
  priority : Priority
  is_completed : Bool
  created_at : Nat
  updated_at : Nat
deriving DecidableEq, Repr

/-- `UpdateTaskInput`: optional partial fields (`none` = field not provided). -/
structure UpdateTaskInput where
  id : Nat
  title : Option Str
  description : Option (Option Str)
  due_date : Option (Option Nat)
  priority : Option Priority
  is_completed : Option Bool
deriving DecidableEq, Repr

/-- Task handler failures. -/
inductive TaskErr where
  | notFound
  | updateFailed
deriving DecidableEq, Repr

/-- The row predicate of `and(eq(tasksTable.id, input.id), eq(tasksTable.user_id, userId))`. -/
def rowMatch (inputId userId : Nat) (t : TaskRow) : Bool :=
  t.id == inputId && t.user_id == userId

/-- `getTask`: select by id *and* owner; `results[0]` or a not-found error. -/
def getTask (db : List TaskRow) (inputId userId : Nat) : Except TaskErr TaskRow :=
  match db.find? (rowMatch inputId userId) with
  | none => .error .notFound
  | some t => .ok t

/-- Application of the provided fields of an update, always touching `updated_at`. -/
def applyUpdate (input : UpdateTaskInput) (nowMs : Nat) (t : TaskRow) : TaskRow :=
  { t with
    title := input.title.getD t.title
    description := input.description.getD t.description
    due_date := input.due_date.getD t.due_date
    priority := input.priority.getD t.priority
    is_completed := input.is_completed.getD t.is_completed
    updated_at := nowMs }

/-- `updateTask`: existence-and-ownership check, owner-scoped update, then the
returned row (`result[0]` of `.returning()`, with the handler's can't-happen
empty-result guard). -/
def updateTask (db : List TaskRow) (input : UpdateTaskInput) (userId nowMs : Nat) :
    Except TaskErr (TaskRow × List TaskRow) :=
  match db.find? (rowMatch input.id userId) with
  | none => .error .notFound
  | some _ =>
    let db' := db.map (fun t => if rowMatch input.id userId t then applyUpdate input nowMs t else t)
    match db'.find? (rowMatch input.id userId) with
    | none => .error .updateFailed
    | some t => .ok (t, db')

/-- `deleteTask`: existence-and-ownership check, then owner-scoped delete. -/
def deleteTask (db : List TaskRow) (inputId userId : Nat) : Except TaskErr (List TaskRow) :=
  match db.find? (rowMatch inputId userId) with
  | none => .error .notFound
  | some _ => .ok (db.filter (fun t => !rowMatch inputId userId t))

end Tasks

/-! # Lemmas -/

/-! ## Base64url alphabet -/

/-- Every base64url character is a byte. -/
theorem b64uc_lt_256 : ∀ s, s < 64 → b64uc s < 256 := by decide

/-- No base64url character is the dot. -/
theorem b64uc_ne_dot : ∀ s, s < 64 → b64uc s ≠ 46 := by decide

/-- No base64url character is the padding character `=`. -/
theorem b64uc_ne_pad : ∀ s, s < 64 → b64uc s ≠ 61 := by decide

/-- Decoding inverts the encoding on each sextet. -/
theorem b64Val_inv : ∀ s, s < 64 → b64Val (urlUnsafeChar (b64uc s)) = s := by decide

/-- Every character of an encoded string is `b64uc` of some sextet. -/
theorem mem_base64UrlEncode {l : List Nat} (hl : ∀ b ∈ l, b < 256) {c : Nat}
    (hc : c ∈ base64UrlEncode l) : ∃ s, s < 64 ∧ c = b64uc s := by
  induction l using base64UrlEncode.induct with
  | case1 => simp [base64UrlEncode] at hc
  | case2 a =>
    have ha := hl a (by simp)
    simp [base64UrlEncode] at hc
    rcases hc with h | h <;> exact ⟨_, by omega, h⟩
  | case3 a b =>
    have ha := hl a (by simp)
    have hb := hl b (by simp)
    simp [base64UrlEncode] at hc
    rcases hc with h | h | h <;> exact ⟨_, by omega, h⟩
  | case4 a b c' rest ih =>
    have ha := hl a (by simp)
    have hb := hl b (by simp)
    have hc' := hl c' (by simp)
    simp only [base64UrlEncode, List.mem_cons] at hc
    rcases hc with h | h | h | h | h
    · exact ⟨_, by omega, h⟩
    · exact ⟨_, by omega, h⟩
    · exact ⟨_, by omega, h⟩
    · exact ⟨_, by omega, h⟩
    · exact ih (fun x hx => hl x (by simp [hx])) h

/-- Encoded strings contain no dot. -/
theorem base64UrlEncode_no_dot {l : List Nat} (hl : ∀ b ∈ l, b < 256) : 46 ∉ base64UrlEncode l := by
  intro hmem
  obtain ⟨s, hs, hsc⟩ := mem_base64UrlEncode hl hmem
  exact b64uc_ne_dot s hs hsc.symm

/-- Encoded strings contain no `=`. -/
theorem base64UrlEncode_no_pad {l : List Nat} (hl : ∀ b ∈ l, b < 256) : 61 ∉ base64UrlEncode l := by
  intro hmem
  obtain ⟨s, hs, hsc⟩ := mem_base64UrlEncode hl hmem
  exact b64uc_ne_pad s hs hsc.symm

/-- `base64UrlDecode` inverts `base64UrlEncode` on byte lists. -/
theorem base64UrlDecode_encode {l : List Nat} (hl : ∀ b ∈ l, b < 256) :
    base64UrlDecode (base64UrlEncode l) = l := by
  induction l using base64UrlEncode.induct with
  | case1 => rfl
  | case2 a =>
    have ha := hl a (by simp)
    simp only [base64UrlEncode, base64UrlDecode, List.map_cons, List.map_nil, b64Decode]
    rw [b64Val_inv _ (by omega), b64Val_inv _ (by omega)]
    congr 1
    omega
  | case3 a b =>
    have ha := hl a (by simp)
    have hb := hl b (by simp)
    simp only [base64UrlEncode, base64UrlDecode, List.map_cons, List.map_nil, b64Decode]
    rw [b64Val_inv _ (by omega), b64Val_inv _ (by omega), b64Val_inv _ (by omega)]
    congr 1
    · omega
    · congr 1
      omega
  | case4 a b c rest ih =>
    have ha := hl a (by simp)
    have hb := hl b (by simp)
    have hc := hl c (by simp)
    have ihr := ih (fun x hx => hl x (by simp [hx]))
    simp only [base64UrlEncode, base64UrlDecode, List.map_cons, b64Decode]
    rw [b64Val_inv _ (by omega), b64Val_inv _ (by omega), b64Val_inv _ (by omega),
      b64Val_inv _ (by omega)]
    simp only [base64UrlDecode] at ihr
    rw [ihr]
    congr 1
    · omega
    · congr 1
      · omega
      · congr 1
        omega

/-! ## Splitting on dots -/

/-- A dot-free string splits to itself. -/
theorem splitDot_no_dot {x : Str} (hx : 46 ∉ x) : splitDot x = [x] := by
  induction x with
  | nil => rfl
  | cons c t ih =>
    have hc : c ≠ 46 := fun h => hx (by simp [h])
    simp only [splitDot, if_neg hc, ih (fun h => hx (List.mem_cons_of_mem _ h))]

/-- Splitting peels off a dot-free prefix before a dot. -/
theorem splitDot_append {x r : Str} (hx : 46 ∉ x) :
    splitDot (x ++ 46 :: r) = x :: splitDot r := by
  induction x with
  | nil => simp [splitDot]
  | cons c t ih =>
    have hc : c ≠ 46 := fun h => hx (by simp [h])
    simp only [List.cons_append, splitDot, if_neg hc, List.append_eq,
      ih (fun h => hx (List.mem_cons_of_mem _ h))]

/-- A three-segment dot-joined string splits into its segments. -/
theorem splitDot_three {x y z : Str} (hx : 46 ∉ x) (hy : 46 ∉ y) (hz : 46 ∉ z) :
    splitDot (x ++ 46 :: (y ++ 46 :: z)) = [x, y, z] := by
  rw [splitDot_append hx, splitDot_append hy, splitDot_no_dot hz]

/-! ## Digest and hex lengths -/

/-- A SHA-256 digest is 32 bytes long, whatever the message. -/
theorem sha256_length (msg : List Nat) : (sha256 msg).length = 32 := by
  simp [sha256, u32beBytes]

/-- Every byte of a SHA-256 digest is below 256. -/
theorem sha256_lt_256 {msg : List Nat} : ∀ b ∈ sha256 msg, b < 256 := by
  intro b hb
  simp [sha256, u32beBytes] at hb
  rcases hb with h | h | h | h | h | h | h | h <;>
    rcases h with h | h | h | h <;> omega

/-- Every byte of an HMAC-SHA-256 digest is below 256. -/
theorem hmacSha256_lt_256 {key msg : List Nat} : ∀ b ∈ hmacSha256 key msg, b < 256 := by
  intro b hb
  exact sha256_lt_256 b hb

/-- Hex encoding doubles the length. -/
theorem hexLower_length (l : List Nat) : (hexLower l).length = 2 * l.length := by
  induction l with
  | nil => rfl
  | cons a t ih => simp [hexLower] at ih ⊢; omega

/-! ## Decimal printing and parsing -/

/-- Every character the decimal printer emits is a digit. -/
theorem natReprF_digits : ∀ fuel n c, c ∈ natReprF fuel n → 48 ≤ c ∧ c ≤ 57 := by
  intro fuel
  induction fuel with
  | zero => intro n c hc; simp [natReprF] at hc
  | succ fuel ih =>
    intro n c hc
    by_cases h : n < 10
    · simp [natReprF, if_pos h] at hc
      omega
    · simp only [natReprF, if_neg h, List.mem_append, List.mem_singleton] at hc
      rcases hc with hc | hc
      · exact ih _ _ hc
      · omega

/-- With fuel, the printer emits at least one character. -/
theorem natReprF_ne_nil : ∀ fuel n, 0 < fuel → natReprF fuel n ≠ [] := by
  intro fuel n hf
  match fuel, hf with
  | fuel + 1, _ =>
    by_cases h : n < 10
    · simp [natReprF, if_pos h]
    · simp [natReprF, if_neg h]

/-- Every character of `natRepr` is a digit. -/
theorem natRepr_digits {n c : Nat} (h : c ∈ natRepr n) : 48 ≤ c ∧ c ≤ 57 :=
  natReprF_digits _ _ _ h

/-- `natRepr` is never empty. -/
theorem natRepr_ne_nil (n : Nat) : natRepr n ≠ [] :=
  natReprF_ne_nil _ _ (Nat.succ_pos n)

/-- The accumulator loop consumes a printed number wholesale, folding it into
the accumulator. -/
theorem parseDigitsAcc_natReprF :
    ∀ fuel n acc rest, n < 10 ^ fuel →
      parseDigitsAcc acc (natReprF fuel n ++ rest) =
      parseDigitsAcc (acc * 10 ^ (natReprF fuel n).length + n) rest := by
  intro fuel
  induction fuel with
  | zero =>
    intro n acc rest hn
    interval_cases n
    simp [natReprF]
  | succ fuel ih =>
    intro n acc rest hn
    by_cases h : n < 10
    · simp only [natReprF, if_pos h, List.cons_append, List.nil_append, parseDigitsAcc,
        List.length_cons, List.length_nil]
      rw [if_pos (by omega)]
      congr 1
      ring_nf
      omega
    · have hdiv : n / 10 < 10 ^ fuel := by
        have : (10 : Nat) ^ (fuel + 1) = 10 ^ fuel * 10 := by ring
        omega
      simp only [natReprF, if_neg h, List.append_assoc, List.cons_append, List.nil_append]
      rw [ih _ acc ((48 + n % 10) :: rest) hdiv]
      simp only [parseDigitsAcc]
      rw [if_pos (by omega)]
      congr 1
      simp only [List.length_append, List.length_cons, List.length_nil]
      have h48 : 48 + n % 10 - 48 = n % 10 := by omega
      rw [h48]
      ring_nf
      omega

/-- The accumulator loop stops immediately on a non-digit (or empty) remainder. -/
theorem parseDigitsAcc_stop {rest : Str}
    (h : ∀ c t, rest = c :: t → ¬(48 ≤ c ∧ c ≤ 57)) (acc : Nat) :
    parseDigitsAcc acc rest = (acc, rest) := by
  cases rest with
  | nil => rfl
  | cons c t => simp [parseDigitsAcc, if_neg (h c t rfl)]

/-- `parseDigits` reads back exactly a printed natural, stopping at a non-digit. -/
theorem parseDigits_natRepr (n : Nat) {rest : Str}
    (hrest : ∀ c t, rest = c :: t → ¬(48 ≤ c ∧ c ≤ 57)) :
    parseDigits (natRepr n ++ rest) = some (n, rest) := by
  cases hne : natRepr n with
  | nil => exact absurd hne (natRepr_ne_nil n)
  | cons c t =>
    have hc : 48 ≤ c ∧ c ≤ 57 := natRepr_digits (by rw [hne]; simp)
    simp only [List.cons_append, parseDigits, if_pos hc]
    have hpow : n < 10 ^ (n + 1) := by
      have h1 := Nat.lt_pow_self (a := 10) (by omega) n
      have h2 := Nat.pow_le_pow_right (show 1 ≤ 10 by omega) (Nat.le_succ n)
      omega
    have key := parseDigitsAcc_natReprF (n + 1) n 0 rest hpow
    rw [natRepr] at hne
    rw [← List.cons_append, ← hne, key, parseDigitsAcc_stop hrest]
    simp

/-! ## String-literal round trip -/

/-- Hex digits print-then-parse to themselves. -/
theorem hexVal_hexDigitL : ∀ d, d < 16 → hexVal (hexDigitL d) = some d := by decide

/-- `parseStringBody` undoes `jsonEscape`, consuming through the closing quote. -/
theorem parseStringBody_escape :
    ∀ (s rest : Str), parseStringBody (jsonEscape s ++ 34 :: rest) = some (s, rest) := by
  intro s
  induction s with
  | nil =>
    intro rest
    rw [show jsonEscape [] = [] from rfl, List.nil_append, parseStringBody.eq_def]
    simp
  | cons b t ih =>
    intro rest
    have hesc : jsonEscape (b :: t) = jsonEscapeByte b ++ jsonEscape t := by
      simp [jsonEscape]
    rw [hesc, List.append_assoc]
    by_cases h34 : b = 34
    · subst h34
      rw [show jsonEscapeByte 34 = [92, 34] from rfl, List.cons_append, List.cons_append,
        List.nil_append, parseStringBody.eq_def]
      simp [escSimple, ih rest]
    · by_cases h92 : b = 92
      · subst h92
        rw [show jsonEscapeByte 92 = [92, 92] from rfl, List.cons_append, List.cons_append,
          List.nil_append, parseStringBody.eq_def]
        simp [escSimple, ih rest]
      · by_cases h8 : b = 8
        · subst h8
          rw [show jsonEscapeByte 8 = [92, 98] from rfl, List.cons_append, List.cons_append,
            List.nil_append, parseStringBody.eq_def]
          simp [escSimple, ih rest]
        · by_cases h9 : b = 9
          · subst h9
            rw [show jsonEscapeByte 9 = [92, 116] from rfl, List.cons_append, List.cons_append,
              List.nil_append, parseStringBody.eq_def]
            simp [escSimple, ih rest]
          · by_cases h10 : b = 10
            · subst h10
              rw [show jsonEscapeByte 10 = [92, 110] from rfl, List.cons_append, List.cons_append,
                List.nil_append, parseStringBody.eq_def]
              simp [escSimple, ih rest]
            · by_cases h12 : b = 12
              · subst h12
                rw [show jsonEscapeByte 12 = [92, 102] from rfl, List.cons_append, List.cons_append,
                  List.nil_append, parseStringBody.eq_def]
                simp [escSimple, ih rest]
              · by_cases h13 : b = 13
                · subst h13
                  rw [show jsonEscapeByte 13 = [92, 114] from rfl, List.cons_append,
                    List.cons_append, List.nil_append, parseStringBody.eq_def]
                  simp [escSimple, ih rest]
                · by_cases hctl : b < 32
                  · have hb : jsonEscapeByte b =
                        [92, 117, 48, 48, hexDigitL (b / 16), hexDigitL (b % 16)] := by
                      simp [jsonEscapeByte, h34, h92, h8, h9, h10, h12, h13, hctl]
                    rw [hb]
                    simp only [List.cons_append, List.nil_append]
                    rw [parseStringBody.eq_def]
                    simp only [reduceIte, show hexVal 48 = some 0 from by decide,
                      hexVal_hexDigitL (b / 16) (by omega), hexVal_hexDigitL (b % 16) (by omega),
                      ih rest]
                    have harith : ((0 * 16 + 0) * 16 + b / 16) * 16 + b % 16 = b := by omega
                    rw [harith]
                    norm_num
                  · have hb : jsonEscapeByte b = [b] := by
                      simp [jsonEscapeByte, h34, h92, h8, h9, h10, h12, h13, hctl]
                    rw [hb]
                    simp only [List.cons_append, List.nil_append]
                    rw [parseStringBody.eq_def]
                    simp [h34, h92, ih rest]

/-! ## Value and object round trips -/

/-- A rendered string literal parses back as a string value. -/
theorem parseValue_strLit (s rest : Str) :
    parseValue (jsonStrLit s ++ rest) = some (.str s, rest) := by
  have hnorm : jsonStrLit s ++ rest = 34 :: (jsonEscape s ++ 34 :: rest) := by
    simp [jsonStrLit]
  rw [hnorm, parseValue.eq_def]
  simp [parseStringBody_escape]

/-- A printed natural parses back as a number value when followed by a non-digit. -/
theorem parseValue_natRepr (n : Nat) {rest : Str}
    (hrest : ∀ c t, rest = c :: t → ¬(48 ≤ c ∧ c ≤ 57)) :
    parseValue (natRepr n ++ rest) = some (.num n, rest) := by
  have hpd : parseDigits (natRepr n ++ rest) = some (n, rest) := parseDigits_natRepr n hrest
  cases hne : natRepr n with
  | nil => exact absurd hne (natRepr_ne_nil n)
  | cons c t =>
    have hc : 48 ≤ c ∧ c ≤ 57 := natRepr_digits (by rw [hne]; simp)
    rw [hne] at hpd
    rw [parseValue.eq_def]
    simp only [List.cons_append] at hpd ⊢
    simp only [if_neg (show ¬c = 34 by omega), if_neg (show ¬c = 45 by omega), if_pos hc, hpd]

/-- `true` parses back. -/
theorem parseValue_true (rest : Str) : parseValue (ascii "true" ++ rest) = some (.bool true, rest) := by
  rw [show ascii "true" = [116, 114, 117, 101] from rfl, parseValue.eq_def]
  simp [show ascii "true" = [116, 114, 117, 101] from rfl,
    show ascii "false" = [102, 97, 108, 115, 101] from rfl,
    show ascii "null" = [110, 117, 108, 108] from rfl]

/-- `false` parses back. -/
theorem parseValue_false (rest : Str) :
    parseValue (ascii "false" ++ rest) = some (.bool false, rest) := by
  rw [show ascii "false" = [102, 97, 108, 115, 101] from rfl, parseValue.eq_def]
  simp [show ascii "true" = [116, 114, 117, 101] from rfl,
    show ascii "false" = [102, 97, 108, 115, 101] from rfl,
    show ascii "null" = [110, 117, 108, 108] from rfl]

/-- `null` parses back. -/
theorem parseValue_null (rest : Str) : parseValue (ascii "null" ++ rest) = some (.null, rest) := by
  rw [show ascii "null" = [110, 117, 108, 108] from rfl, parseValue.eq_def]
  simp [show ascii "true" = [116, 114, 117, 101] from rfl,
    show ascii "false" = [102, 97, 108, 115, 101] from rfl,
    show ascii "null" = [110, 117, 108, 108] from rfl]

/-- Every renderable value parses back from its rendering, given a non-digit
continuation. -/
theorem parseValue_render {v : JVal} (hv : renderableVal v) {rest : Str}
    (hrest : ∀ c t, rest = c :: t → ¬(48 ≤ c ∧ c ≤ 57)) :
    parseValue (renderJVal v ++ rest) = some (v, rest) := by
  cases v with
  | num n =>
    have h0 : ¬n < 0 := by
      simp only [renderableVal] at hv
      omega
    rw [renderJVal, if_neg h0, parseValue_natRepr n.toNat hrest,
      Int.toNat_of_nonneg (by omega)]
  | str s => exact parseValue_strLit s rest
  | bool b =>
    cases b
    · exact parseValue_false rest
    · exact parseValue_true rest
  | null => exact parseValue_null rest

/-- A rendered member list parses back, consuming the closing brace. -/
theorem parseMembers_render :
    ∀ (ms : List (Str × JVal)) (fuel : Nat) (rest : Str), ms ≠ [] → ms.length ≤ fuel →
      (∀ m ∈ ms, renderableVal m.2) →
      parseMembers fuel (joinComma (ms.map renderMember) ++ 125 :: rest) = some (ms, rest) := by
  intro ms
  induction ms with
  | nil => intro _ _ h _ _; exact absurd rfl h
  | cons m ms' ih =>
    intro fuel rest _ hfuel hval
    obtain ⟨f, rfl⟩ : ∃ f, fuel = f + 1 := ⟨fuel - 1, by simp at hfuel; omega⟩
    obtain ⟨k, v⟩ := m
    have hvv : renderableVal v := hval (k, v) (List.mem_cons_self _ _)
    cases ms' with
    | nil =>
      have hnorm : joinComma ([(k, v)].map renderMember) ++ 125 :: rest =
          34 :: (jsonEscape k ++ 34 :: 58 :: (renderJVal v ++ 125 :: rest)) := by
        simp [joinComma, renderMember, jsonMember, jsonStrLit]
      have hpv : parseValue (renderJVal v ++ 125 :: rest) = some (v, 125 :: rest) :=
        parseValue_render hvv (fun c t h => by injection h with h1 _; omega)
      rw [hnorm, parseMembers.eq_def]
      simp only [parseStringBody_escape, hpv]
    | cons m' ms'' =>
      have hnorm : joinComma (((k, v) :: m' :: ms'').map renderMember) ++ 125 :: rest =
          34 :: (jsonEscape k ++ 34 :: 58 :: (renderJVal v ++
            44 :: (joinComma ((m' :: ms'').map renderMember) ++ 125 :: rest))) := by
        simp [joinComma, renderMember, jsonMember, jsonStrLit]
      have hpv : parseValue (renderJVal v ++
          44 :: (joinComma ((m' :: ms'').map renderMember) ++ 125 :: rest)) =
          some (v, 44 :: (joinComma ((m' :: ms'').map renderMember) ++ 125 :: rest)) :=
        parseValue_render hvv (fun c t h => by injection h with h1 _; omega)
      rw [hnorm, parseMembers.eq_def]
      have hih := ih f rest (by simp) (by simp at hfuel ⊢; omega)
        (fun x hx => hval x (List.mem_cons_of_mem _ hx))
      simp only [parseStringBody_escape, hpv, hih]

/-- A member's rendering is nonempty. -/
theorem renderMember_length_pos (m : Str × JVal) : 0 < (renderMember m).length := by
  simp [renderMember, jsonMember, jsonStrLit]

/-- The joined member bytes dominate the member count. -/
theorem joinComma_length_ge :
    ∀ ms : List (Str × JVal), ms.length ≤ (joinComma (ms.map renderMember)).length := by
  intro ms
  induction ms with
  | nil => simp [joinComma]
  | cons m ms' ih =>
    cases ms' with
    | nil => simpa [joinComma] using renderMember_length_pos m
    | cons m' ms'' =>
      have hm := renderMember_length_pos m
      simp only [List.map_cons, joinComma, List.length_append, List.length_cons] at ih ⊢
      omega

/-- A rendered flat object parses back to itself. -/
theorem parseJson_renderObj (o : JObj) (ho : o ≠ []) (hv : ∀ m ∈ o, renderableVal m.2) :
    parseJson (renderObj o) = some o := by
  obtain ⟨m, o', rfl⟩ := List.exists_cons_of_ne_nil ho
  have hhead : ∃ tail, joinComma ((m :: o').map renderMember) = 34 :: tail := by
    obtain ⟨k, v⟩ := m
    cases o' with
    | nil =>
      exact ⟨jsonEscape k ++ 34 :: 58 :: renderJVal v,
        by simp [joinComma, renderMember, jsonMember, jsonStrLit]⟩
    | cons m' ms'' =>
      exact ⟨jsonEscape k ++ 34 :: 58 ::
          (renderJVal v ++ 44 :: joinComma ((m' :: ms'').map renderMember)),
        by simp [joinComma, renderMember, jsonMember, jsonStrLit]⟩
  obtain ⟨tail, htail⟩ := hhead
  have hlen := joinComma_length_ge (m :: o')
  rw [htail] at hlen
  have hmem := parseMembers_render (m :: o') ((34 :: (tail ++ [125])).length + 1) []
    (by simp) (by simp at hlen ⊢; omega) hv
  rw [htail] at hmem
  simp only [List.cons_append, List.append_nil] at hmem
  rw [show (125 : Nat) :: ([] : Str) = [125] from rfl] at hmem
  rw [renderObj, jsonObj, htail, parseJson.eq_def]
  simp only [List.cons_append]
  simp only [List.length_cons, List.length_append, List.length_nil] at hmem ⊢
  rw [hmem]
  simp

/-- The codec's payload serialization is the rendering of its parse result. -/
theorem payloadJson_renderObj (p : AuthMw.JwtPayload) :
    AuthMw.payloadJson p = renderObj (AuthMw.objOfClaims p) := by
  simp [AuthMw.payloadJson, AuthMw.objOfClaims, renderObj, renderMember, renderJVal,
    jsonObj, joinComma]
  rw [if_neg (show ¬((p.userId : Int) < 0) by omega),
    if_neg (show ¬((p.iat : Int) < 0) by omega),
    if_neg (show ¬((p.exp : Int) < 0) by omega)]

/-! ## Byte bounds of serialized payloads -/

/-- Byte bounds are preserved by append. -/
theorem allLt256_append {a b : Str} (ha : allLt256 a) (hb : allLt256 b) : allLt256 (a ++ b) := by
  intro c hc
  rcases List.mem_append.1 hc with h | h
  · exact ha c h
  · exact hb c h

/-- Byte bounds are preserved by cons. -/
theorem allLt256_cons {c : Nat} {a : Str} (hc : c < 256) (ha : allLt256 a) :
    allLt256 (c :: a) := by
  intro b hb
  rcases List.mem_cons.1 hb with h | h
  · omega
  · exact ha b h

/-- Escaping one byte emits only bytes. -/
theorem jsonEscapeByte_lt {b : Nat} (hb : b < 256) : ∀ c ∈ jsonEscapeByte b, c < 256 := by
  intro c hc
  simp only [jsonEscapeByte, hexDigitL] at hc
  split_ifs at hc <;> simp_all <;> omega

/-- Escaping a byte string emits only bytes. -/
theorem jsonEscape_lt {s : Str} (hs : allLt256 s) : allLt256 (jsonEscape s) := by
  intro c hc
  simp only [jsonEscape, List.mem_flatMap] at hc
  obtain ⟨b, hb, hcb⟩ := hc
  exact jsonEscapeByte_lt (hs b hb) c hcb

/-- Decimal digits are bytes. -/
theorem natRepr_lt (n : Nat) : allLt256 (natRepr n) := by
  intro c hc
  have := natRepr_digits hc
  omega

/-- String literals serialize to bytes. -/
theorem jsonStrLit_lt {s : Str} (hs : allLt256 s) : allLt256 (jsonStrLit s) := by
  unfold jsonStrLit
  exact allLt256_cons (by omega) (allLt256_append (jsonEscape_lt hs) (by intro b hb; simp at hb; omega))

/-- A member from byte-bounded key and value is byte-bounded. -/
theorem jsonMember_lt {k v : Str} (hk : allLt256 k) (hv : allLt256 v) :
    allLt256 (jsonMember k v) := by
  unfold jsonMember
  exact allLt256_append (jsonStrLit_lt hk) (allLt256_cons (by omega) hv)

/-- Joining byte-bounded members is byte-bounded. -/
theorem joinComma_lt : ∀ {ms : List Str}, (∀ x ∈ ms, allLt256 x) → allLt256 (joinComma ms) := by
  intro ms
  induction ms with
  | nil => intro _ b hb; simp [joinComma] at hb
  | cons x ms' ih =>
    intro hms
    cases ms' with
    | nil => simpa [joinComma] using hms x (by simp)
    | cons y zs =>
      rw [joinComma]
      exact allLt256_append (hms x (by simp))
        (allLt256_cons (by omega) (ih (fun z hz => hms z (List.mem_cons_of_mem _ hz))))

/-- An object over byte-bounded members is byte-bounded. -/
theorem jsonObj_lt {ms : List Str} (hms : ∀ x ∈ ms, allLt256 x) : allLt256 (jsonObj ms) := by
  unfold jsonObj
  exact allLt256_cons (by omega)
    (allLt256_append (joinComma_lt hms) (by intro b hb; simp at hb; omega))

/-- The serialized codec payload is byte-bounded when the email is. -/
theorem payloadJson_lt {p : AuthMw.JwtPayload} (he : allLt256 p.email) :
    allLt256 (AuthMw.payloadJson p) := by
  unfold AuthMw.payloadJson
  refine jsonObj_lt ?_
  intro x hx
  simp only [List.mem_cons, List.not_mem_nil, or_false] at hx
  rcases hx with h | h | h | h <;> subst h
  · exact jsonMember_lt (show ∀ b ∈ ascii "userId", b < 256 by decide) (natRepr_lt _)
  · exact jsonMember_lt (show ∀ b ∈ ascii "email", b < 256 by decide) (jsonStrLit_lt he)
  · exact jsonMember_lt (show ∀ b ∈ ascii "iat", b < 256 by decide) (natRepr_lt _)
  · exact jsonMember_lt (show ∀ b ∈ ascii "exp", b < 256 by decide) (natRepr_lt _)

/-- The serialized header is byte-bounded. -/
theorem jwtHeader_lt : allLt256 AuthMw.jwtHeader :=
  show ∀ b ∈ AuthMw.jwtHeader, b < 256 by decide

/-! ## Structure of codec-issued tokens -/

/-- The issued token, re-associated around its two dots. -/
theorem encodeClaims_eq (p : AuthMw.JwtPayload) (secret : Str) :
    AuthMw.encodeClaims p secret =
      base64UrlEncode AuthMw.jwtHeader ++ 46 ::
        (base64UrlEncode (AuthMw.payloadJson p) ++ 46 ::
          AuthMw.createSignature
            (base64UrlEncode AuthMw.jwtHeader ++ 46 :: base64UrlEncode (AuthMw.payloadJson p))
            secret) := by
  simp [AuthMw.encodeClaims]

/-- An issued token splits into exactly its three segments. -/
theorem splitDot_encodeClaims {p : AuthMw.JwtPayload} {secret : Str} (he : allLt256 p.email) :
    splitDot (AuthMw.encodeClaims p secret) =
      [base64UrlEncode AuthMw.jwtHeader, base64UrlEncode (AuthMw.payloadJson p),
       AuthMw.createSignature
         (base64UrlEncode AuthMw.jwtHeader ++ 46 :: base64UrlEncode (AuthMw.payloadJson p))
         secret] := by
  rw [encodeClaims_eq]
  exact splitDot_three (base64UrlEncode_no_dot jwtHeader_lt)
    (base64UrlEncode_no_dot (payloadJson_lt he))
    (base64UrlEncode_no_dot hmacSha256_lt_256)

/-- The codec accepts the signature it just produced. -/
theorem verifySignature_encodeClaims {p : AuthMw.JwtPayload} {secret : Str}
    (he : allLt256 p.email) :
    AuthMw.verifySignature (AuthMw.encodeClaims p secret) secret = true := by
  unfold AuthMw.verifySignature
  rw [splitDot_encodeClaims he]
  simp [List.getD]

/-! ## Decoding an issued token -/

/-- The serialized payload parses back to its claims object. -/
theorem parseJson_payloadJson (p : AuthMw.JwtPayload) :
    parseJson (AuthMw.payloadJson p) = some (AuthMw.objOfClaims p) := by
  rw [payloadJson_renderObj]
  refine parseJson_renderObj _ (by simp [AuthMw.objOfClaims]) ?_
  intro m hm
  simp only [AuthMw.objOfClaims, List.mem_cons, List.not_mem_nil, or_false] at hm
  rcases hm with h | h | h | h <;> subst h <;> simp [renderableVal]

/-- Looking up `userId` in the claims object. -/
theorem jlookup_userId (p : AuthMw.JwtPayload) :
    jlookup (AuthMw.objOfClaims p) (ascii "userId") = some (.num p.userId) := by
  simp [jlookup, AuthMw.objOfClaims, List.find?]

/-- Looking up `email` in the claims object. -/
theorem jlookup_email (p : AuthMw.JwtPayload) :
    jlookup (AuthMw.objOfClaims p) (ascii "email") = some (.str p.email) := by
  simp [jlookup, AuthMw.objOfClaims, List.find?,
    show (ascii "userId" == ascii "email") = false from by decide]

/-- Looking up `iat` in the claims object. -/
theorem jlookup_iat (p : AuthMw.JwtPayload) :
    jlookup (AuthMw.objOfClaims p) (ascii "iat") = some (.num p.iat) := by
  simp [jlookup, AuthMw.objOfClaims, List.find?,
    show (ascii "userId" == ascii "iat") = false from by decide,
    show (ascii "email" == ascii "iat") = false from by decide]

/-- Looking up `exp` in the claims object. -/
theorem jlookup_exp (p : AuthMw.JwtPayload) :
    jlookup (AuthMw.objOfClaims p) (ascii "exp") = some (.num p.exp) := by
  simp [jlookup, AuthMw.objOfClaims, List.find?,
    show (ascii "userId" == ascii "exp") = false from by decide,
    show (ascii "email" == ascii "exp") = false from by decide,
    show (ascii "iat" == ascii "exp") = false from by decide]

/-- C8 (amended): the round-trip law of the token codec holds for every claims
object whose required fields are all truthy (nonzero `userId` and `iat`,
nonempty `email`; the empty secret cannot encode at all since `generateToken`
raises the missing-secret error): decoding the serialized-and-signed token with
the issuing secret at any instant of the validity window `iat ≤ now < exp`
succeeds and returns exactly the claims object that was serialized.  The
original claim, quantified over *all* claims with `iat ≤ now < exp`, is refuted
by `c8_counterexample`, because the decoder's required-field check uses
JavaScript truthiness. -/
theorem c8_roundtrip {p : AuthMw.JwtPayload} {secret : Str} {nowSec : Nat}
    (hsec : secret ≠ []) (he : allLt256 p.email) (hid : p.userId ≠ 0) (hem : p.email ≠ [])
    (hiat : p.iat ≠ 0) (hle : p.iat ≤ nowSec) (hlt : nowSec < p.exp) :
    AuthMw.decodeClaims (some secret) nowSec (AuthMw.encodeClaims p secret) =
      .ok (AuthMw.objOfClaims p) := by
  have hfalsy : AuthMw.secretFalsy (some secret) = false := by
    simp [AuthMw.secretFalsy, List.isEmpty_iff, hsec]
  have hsplit : splitDot (AuthMw.encodeClaims p secret) =
      [base64UrlEncode AuthMw.jwtHeader, base64UrlEncode (AuthMw.payloadJson p),
       AuthMw.createSignature
         (base64UrlEncode AuthMw.jwtHeader ++ 46 :: base64UrlEncode (AuthMw.payloadJson p))
         secret] :=
    splitDot_encodeClaims he
  unfold AuthMw.decodeClaims
  rw [hfalsy]
  simp only [Bool.false_eq_true, if_false, Option.getD_some, hsplit,
    show ∀ a b c : Str, ([a, b, c] : List Str).length = 3 from fun _ _ _ => rfl,
    show ∀ a b c : Str, ([a, b, c] : List Str).getD 1 [] = b from fun _ _ _ => rfl,
    verifySignature_encodeClaims he]
  rw [if_neg (show ¬(3 ≠ 3) from by omega), if_neg (show ¬¬True from fun h => h trivial)]
  rw [base64UrlDecode_encode (payloadJson_lt he), parseJson_payloadJson]
  simp only [jlookup_userId, jlookup_email, jlookup_iat, jlookup_exp, truthy,
    jsLtNum, jsGtNum, jsToNumber, Option.getD_some]
  rw [if_neg, if_neg, if_neg]
  · simp
    omega
  · simp
    omega
  · simp only [Bool.not_eq_true, Bool.and_eq_true, decide_eq_true_eq, not_and, not_not]
    intro h1
    have hexp : (p.exp : Int) ≠ 0 := by
      have hx : p.exp ≠ 0 := by omega
      exact_mod_cast hx
    have huid : (p.userId : Int) ≠ 0 := by exact_mod_cast hid
    have hiat0 : (p.iat : Int) = 0 := h1 ⟨⟨huid, hem⟩, hexp⟩
    exact hiat (by exact_mod_cast hiat0)

/-! # Claim theorems -/

/-- C1: the spec claims register-then-login with the same credentials succeeds.
In the code, `register` stores `hex(salt):hex(pbkdf2)` (161 characters) while
`login` verifies by comparing a bare 64-character SHA-256 hex digest against the
stored hash, so the very first length check fails and login rejects the freshly
registered credentials with the unified invalid-credentials error.  This theorem
evaluates the code at the failing input `alice@example.com` / `secret123`. -/
theorem c1_register_then_login_rejected :
    (Register.register [] (ascii "alice@example.com") (ascii "secret123") (ascii "Alice")
        (List.replicate 16 0) (List.replicate 64 0) 1 0).map
      (fun out => Login.login out.db (some (ascii "k")) (ascii "alice@example.com")
        (ascii "secret123") 0 0) =
    .ok (.error .invalidCredentials) := by decide

/-- C6 counterexample: the claim says a header of exactly `"Bearer "` produces an
empty token that is handed to the decoder, failing there with a decode error.
In the code, `protectedProcedure`'s `!token` check treats the extracted empty
string as missing and rejects with the missing-token error (`'Authentication
token required'`), which is a different rejection from the decode-failure one
(`'Invalid or expired token'`). -/
theorem c6_counterexample :
    Middleware.protectedAuth [] (some (ascii "k")) 0 (some (ascii "Bearer ")) =
      .error .tokenRequired ∧
    Middleware.MwErr.tokenRequired ≠ Middleware.MwErr.invalidToken := by
  exact ⟨rfl, by decide⟩

/-- C6 (amended): a header of exactly `"Bearer "` does yield an empty-string
token from extraction, but `protectedProcedure`'s falsy-token check rejects it
with the missing-token error before the token decoder is ever consulted, for
every database, secret configuration and clock value. -/
theorem c6_empty_bearer_rejected_as_missing (db : List UserRow) (env : Option Str)
    (nowSec : Nat) :
    AuthMw.extractTokenFromHeader (some (ascii "Bearer ")) = some [] ∧
    Middleware.protectedAuth db env nowSec (some (ascii "Bearer ")) = .error .tokenRequired :=
  ⟨rfl, rfl⟩

/-- C9 (amended): `verifyPassword` returns false without throwing whenever the
stored hash's length differs from the 64 characters of a SHA-256 hex digest (so
a PBKDF2-formatted `salt:hash` entry, or any other malformed value of a
different length, fails closed); but a 64-character stored hash containing
non-hex characters makes the hex decoding truncate, and `timingSafeEqual`
throws a `RangeError` past the verify boundary. -/
theorem c9_verify_failure_modes :
    (∀ password hash : Str, hash.length ≠ 64 → Login.verifyPassword password hash = .ok false) ∧
    Login.verifyPassword (ascii "password123") (List.replicate 64 122) = .error .rangeError := by
  constructor
  · intro password hash hlen
    unfold Login.verifyPassword
    have h64 : (hexLower (sha256 password)).length = 64 := by
      rw [hexLower_length, sha256_length]
    rw [if_pos (by omega)]
  · decide

/-- Witness for C9: applying the no-throw conjunct at a concrete short hash. -/
theorem c9_witness :
    (ascii "ab").length ≠ 64 ∧ Login.verifyPassword (ascii "a") (ascii "ab") = .ok false :=
  ⟨by decide, c9_verify_failure_modes.1 (ascii "a") (ascii "ab") (by decide)⟩

/-- C9 counterexample: the claim says password verification never throws past
the verify boundary on a malformed stored hash; a 64-character non-hex stored
hash makes `timingSafeEqual` throw a `RangeError`. -/
theorem c9_counterexample :
    Login.verifyPassword (ascii "secret123") (List.replicate 64 103) = .error .rangeError := by
  decide

/-- C2: the spec claims a token from a successful login authenticates under the
token decoder.  In the code, the login handler signs with a plain SHA-256 of
`header + "." + body + "." + secret` while `verifyToken` recomputes an
HMAC-SHA-256 over `header + "." + payload`; the two never agree, so the decoder
rejects every login-issued token with the invalid-signature error, and the
middleware maps it to the invalid-token rejection instead of producing an
`AuthContext`.  This theorem evaluates the full pipeline at a stored user with
the correct password. -/
theorem c2_login_token_rejected_by_verifier :
    Login.login [⟨1, ascii "a@b", hexLower (sha256 (ascii "pw")), ascii "n", 0, 0⟩]
        (some (ascii "k")) (ascii "a@b") (ascii "pw") 0 0 =
      .ok ⟨⟨1, ascii "a@b", ascii "n", 0, 0⟩,
        Login.generateToken (some (ascii "k")) 1 (ascii "a@b") 0 0⟩ ∧
    AuthMw.verifyToken [⟨1, ascii "a@b", hexLower (sha256 (ascii "pw")), ascii "n", 0, 0⟩]
        (some (ascii "k")) 0 (Login.generateToken (some (ascii "k")) 1 (ascii "a@b") 0 0) =
      .error .invalidSignature ∧
    Middleware.protectedAuth [⟨1, ascii "a@b", hexLower (sha256 (ascii "pw")), ascii "n", 0, 0⟩]
        (some (ascii "k")) 0
        (some (ascii "Bearer " ++ Login.generateToken (some (ascii "k")) 1 (ascii "a@b") 0 0)) =
      .error .invalidToken := by
  refine ⟨by decide, by decide, by decide⟩

/-- C4: the codec's issuance and verification both fail with the missing-secret
configuration error when no secret (or an empty one) is configured, but the
login handler's issuance path does *not*: it silently substitutes
`'default-secret-key'` and issues a token identical to one signed with that
default, violating the never-defaulted part of the claim. -/
theorem c4_missing_secret_vs_default_fallback :
    AuthMw.generateToken none ⟨1, ascii "a@b", ascii "n", 0, 0⟩ 0 = .error .missingSecret ∧
    AuthMw.generateToken (some []) ⟨1, ascii "a@b", ascii "n", 0, 0⟩ 0 = .error .missingSecret ∧
    AuthMw.decodeClaims none 0 (ascii "x.y.z") = .error .missingSecret ∧
    AuthMw.decodeClaims (some []) 0 (ascii "x.y.z") = .error .missingSecret ∧
    Login.resolveSecret none = ascii "default-secret-key" ∧
    Login.resolveSecret (some []) = ascii "default-secret-key" ∧
    Login.generateToken none 1 (ascii "a@b") 0 0 =
      Login.generateToken (some (ascii "default-secret-key")) 1 (ascii "a@b") 0 0 := by
  refine ⟨rfl, rfl, rfl, rfl, rfl, rfl, rfl⟩

/-- C10: owner isolation of the task handlers: `getTask`, `updateTask` and
`deleteTask` only ever return, modify or delete rows whose `user_id` is the
authenticated user's; when a row with the addressed id exists but belongs to a
different user, each operation fails with its not-found error, and the
update/delete only rewrite rows matching both the id and the owner, leaving
every other row in place. -/
theorem c10_owner_isolation (db : List Tasks.TaskRow) (input : Tasks.UpdateTaskInput)
    (inputId userId nowMs : Nat) :
    (∀ t, Tasks.getTask db inputId userId = .ok t → t.user_id = userId ∧ t ∈ db) ∧
    ((∃ t ∈ db, t.id = inputId) → (∀ t ∈ db, t.id = inputId → t.user_id ≠ userId) →
      Tasks.getTask db inputId userId = .error .notFound) ∧
    (∀ t db', Tasks.updateTask db input userId nowMs = .ok (t, db') →
      t.user_id = userId ∧ ∀ r ∈ db, ¬(r.id = input.id ∧ r.user_id = userId) → r ∈ db') ∧
    ((∃ t ∈ db, t.id = input.id) → (∀ t ∈ db, t.id = input.id → t.user_id ≠ userId) →
      Tasks.updateTask db input userId nowMs = .error .notFound) ∧
    (∀ db', Tasks.deleteTask db inputId userId = .ok db' →
      (∀ r ∈ db, r ∉ db' → r.user_id = userId) ∧ (∀ r ∈ db, r.user_id ≠ userId → r ∈ db')) ∧
    ((∃ t ∈ db, t.id = inputId) → (∀ t ∈ db, t.id = inputId → t.user_id ≠ userId) →
      Tasks.deleteTask db inputId userId = .error .notFound) := by
  have hmatch : ∀ (iid uid : Nat) (t : Tasks.TaskRow),
      Tasks.rowMatch iid uid t = true ↔ t.id = iid ∧ t.user_id = uid := by
    intro iid uid t
    simp [Tasks.rowMatch]
  have hnone : ∀ (iid uid : Nat), (∀ t ∈ db, t.id = iid → t.user_id ≠ uid) →
      db.find? (Tasks.rowMatch iid uid) = none := by
    intro iid uid h
    rw [List.find?_eq_none]
    intro t ht hm
    rcases (hmatch iid uid t).1 hm with ⟨h1, h2⟩
    exact h t ht h1 h2
  refine ⟨?_, ?_, ?_, ?_, ?_, ?_⟩
  · intro t ht
    unfold Tasks.getTask at ht
    cases hf : db.find? (Tasks.rowMatch inputId userId) with
    | none => rw [hf] at ht; cases ht
    | some u =>
      rw [hf] at ht
      cases ht
      exact ⟨((hmatch _ _ _).1 (List.find?_some hf)).2, List.mem_of_find?_eq_some hf⟩
  · intro _ h
    unfold Tasks.getTask
    rw [hnone _ _ h]
  · intro t db' hup
    unfold Tasks.updateTask at hup
    cases hf : db.find? (Tasks.rowMatch input.id userId) with
    | none => rw [hf] at hup; cases hup
    | some u =>
      rw [hf] at hup
      dsimp only at hup
      cases hf' : List.find? (Tasks.rowMatch input.id userId)
          (List.map (fun r => if Tasks.rowMatch input.id userId r = true
            then Tasks.applyUpdate input nowMs r else r) db) with
      | none => rw [hf'] at hup; cases hup
      | some w =>
        rw [hf'] at hup
        cases hup
        constructor
        · exact ((hmatch _ _ _).1 (List.find?_some hf')).2
        · intro r hr hnm
          have : (if Tasks.rowMatch input.id userId r then Tasks.applyUpdate input nowMs r
              else r) = r := by
            rw [if_neg]
            intro hm
            exact hnm ((hmatch _ _ _).1 hm)
          rw [← this]
          exact List.mem_map_of_mem _ hr
  · intro _ h
    unfold Tasks.updateTask
    rw [hnone _ _ h]
  · intro db' hdel
    unfold Tasks.deleteTask at hdel
    cases hf : db.find? (Tasks.rowMatch inputId userId) with
    | none => rw [hf] at hdel; cases hdel
    | some u =>
      rw [hf] at hdel
      cases hdel
      constructor
      · intro r hr hnot
        by_cases hm : Tasks.rowMatch inputId userId r = true
        · exact ((hmatch _ _ _).1 hm).2
        · exact absurd (List.mem_filter.2 ⟨hr, by simp [hm]⟩) hnot
      · intro r hr hne
        refine List.mem_filter.2 ⟨hr, ?_⟩
        have : Tasks.rowMatch inputId userId r = false := by
          rcases hb : Tasks.rowMatch inputId userId r with _ | _
          · rfl
          · exact absurd ((hmatch _ _ _).1 hb).2 hne
        simp [this]
  · intro _ h
    unfold Tasks.deleteTask
    rw [hnone _ _ h]

/-- C8 counterexample: the round-trip law as stated fails on the code: the
claims `userId = 1`, `email = "a@b"`, `iat = 0`, `exp = 86400` satisfy
`iat ≤ now < exp` at `now = 0`, yet decoding the token encoded from them fails
with the invalid-payload error, because `!payload.iat` treats the present value
`0` as missing. -/
theorem c8_counterexample :
    (0 ≤ 0 ∧ 0 < 86400) ∧
    AuthMw.decodeClaims (some (ascii "k")) 0
      (AuthMw.encodeClaims ⟨1, ascii "a@b", 0, 86400⟩ (ascii "k")) =
      .error .invalidPayload := by
  exact ⟨by omega, by decide⟩

/-- Witness for C8: the round trip applied to the concrete claims
`userId = 1`, `email = "a@b"`, `iat = 1`, `exp = 86400` at `now = 1` with
secret `"k"`. -/
theorem c8_witness :
    ((ascii "k" : Str) ≠ [] ∧ (1 : Nat) ≠ 0 ∧ (ascii "a@b" : Str) ≠ [] ∧ (1 : Nat) ≤ 1 ∧
      (1 : Nat) < 86400) ∧
    AuthMw.decodeClaims (some (ascii "k")) 1
      (AuthMw.encodeClaims ⟨1, ascii "a@b", 1, 86400⟩ (ascii "k")) =
      .ok (AuthMw.objOfClaims ⟨1, ascii "a@b", 1, 86400⟩) :=
  ⟨⟨by decide, by decide, by decide, by decide, by decide⟩,
    c8_roundtrip (by decide) (show ∀ b ∈ ascii "a@b", b < 256 by decide) (by decide)
      (by decide) (by decide) (by decide) (by decide)⟩

/-- C3 (amended): every token the codec's `generateToken` issues has exactly the
claimed wire format — three dot-separated unpadded base64url segments, the first
two being base64url of the compact-JSON header and payload and the third being
base64url of HMAC-SHA-256 over `header + "." + payload` under the secret.  (The
login handler's own `generateToken` violates the claimed signature formula; see
`c3_counterexample`.) -/
theorem c3_codec_token_wire_format (env : Option Str) (s : Str) (user : UserPub) (nowSec : Nat)
    (hsec : env = some s) (hs : s ≠ []) (he : allLt256 user.email) :
    ∃ t, AuthMw.generateToken env user nowSec = .ok t ∧
      splitDot t = [base64UrlEncode AuthMw.jwtHeader,
        base64UrlEncode (AuthMw.payloadJson ⟨user.id, user.email, nowSec, nowSec + 24 * 60 * 60⟩),
        base64UrlEncode (hmacSha256 s (base64UrlEncode AuthMw.jwtHeader ++ 46 ::
          base64UrlEncode
            (AuthMw.payloadJson ⟨user.id, user.email, nowSec, nowSec + 24 * 60 * 60⟩)))] ∧
      61 ∉ t := by
  subst hsec
  have hfalsy : AuthMw.secretFalsy (some s) = false := by
    simp [AuthMw.secretFalsy, List.isEmpty_iff, hs]
  refine ⟨AuthMw.encodeClaims ⟨user.id, user.email, nowSec, nowSec + 24 * 60 * 60⟩ s, ?_, ?_, ?_⟩
  · unfold AuthMw.generateToken
    rw [hfalsy]
    simp
  · have hsp : splitDot (AuthMw.encodeClaims ⟨user.id, user.email, nowSec,
        nowSec + 24 * 60 * 60⟩ s) =
        [base64UrlEncode AuthMw.jwtHeader,
         base64UrlEncode (AuthMw.payloadJson ⟨user.id, user.email, nowSec, nowSec + 24 * 60 * 60⟩),
         AuthMw.createSignature (base64UrlEncode AuthMw.jwtHeader ++ 46 ::
           base64UrlEncode
             (AuthMw.payloadJson ⟨user.id, user.email, nowSec, nowSec + 24 * 60 * 60⟩)) s] :=
      splitDot_encodeClaims he
    simpa [AuthMw.createSignature] using hsp
  · rw [encodeClaims_eq]
    intro hmem
    simp only [List.mem_append, List.mem_cons] at hmem
    rcases hmem with h | h | h | h
    · exact base64UrlEncode_no_pad jwtHeader_lt h
    · omega
    · exact base64UrlEncode_no_pad (payloadJson_lt he) h
    · rcases h with h | h
      · omega
      · exact base64UrlEncode_no_pad hmacSha256_lt_256 h

/-- Witness for C3: the wire-format theorem at a concrete user and secret. -/
theorem c3_witness :
    ((some (ascii "k") : Option Str) = some (ascii "k") ∧ (ascii "k" : Str) ≠ [] ∧
      (∀ b ∈ ascii "a@b", b < 256)) ∧
    (∃ t, AuthMw.generateToken (some (ascii "k")) ⟨1, ascii "a@b", ascii "n", 0, 0⟩ 5 = .ok t ∧
      splitDot t = [base64UrlEncode AuthMw.jwtHeader,
        base64UrlEncode (AuthMw.payloadJson ⟨1, ascii "a@b", 5, 5 + 24 * 60 * 60⟩),
        base64UrlEncode (hmacSha256 (ascii "k") (base64UrlEncode AuthMw.jwtHeader ++ 46 ::
          base64UrlEncode (AuthMw.payloadJson ⟨1, ascii "a@b", 5, 5 + 24 * 60 * 60⟩)))] ∧
      61 ∉ t) :=
  ⟨⟨rfl, by decide, by decide⟩,
    c3_codec_token_wire_format (some (ascii "k")) (ascii "k") ⟨1, ascii "a@b", ascii "n", 0, 0⟩ 5
      rfl (by decide) (show ∀ b ∈ ascii "a@b", b < 256 by decide)⟩

/-- C3 counterexample: the claim extends the wire format to "any issuance path",
including the login handler's `generateToken`; but that function's third segment
is base64url of a plain SHA-256 of `header + "." + body + "." + secret`, which
differs from base64url of HMAC-SHA-256 over `header + "." + body` at this
concrete input. -/
theorem c3_counterexample :
    (splitDot (Login.generateToken (some (ascii "k")) 1 (ascii "a@b") 0 0)).getD 2 [] ≠
      base64UrlEncode (hmacSha256 (ascii "k")
        ((splitDot (Login.generateToken (some (ascii "k")) 1 (ascii "a@b") 0 0)).getD 0 [] ++
          46 :: (splitDot (Login.generateToken (some (ascii "k")) 1 (ascii "a@b") 0 0)).getD 1 [])) := by
  decide

/-- C7 (amended): for a configured secret and a well-signed three-segment token
whose payload parses, `decodeClaims` fails with the invalid-payload error *iff*
one of the four required claim fields is absent **or falsy** (JavaScript
truthiness: `0`, the empty string, `false` and `null` all fail the check, not
just absence).  The original presence-only claim is refuted by
`c7_counterexample`. -/
theorem c7_truthiness_gate (env : Option Str) (s token : Str) (nowSec : Nat) (o : JObj)
    (hsec : env = some s) (hs : s ≠ []) (hfmt : (splitDot token).length = 3)
    (hsig : AuthMw.verifySignature token s = true)
    (hparse : parseJson (base64UrlDecode ((splitDot token).getD 1 [])) = some o) :
    AuthMw.decodeClaims env nowSec token = .error .invalidPayload ↔
      ¬(truthy (jlookup o (ascii "userId")) = true ∧ truthy (jlookup o (ascii "email")) = true ∧
        truthy (jlookup o (ascii "exp")) = true ∧ truthy (jlookup o (ascii "iat")) = true) := by
  subst hsec
  have hfalsy : AuthMw.secretFalsy (some s) = false := by
    simp [AuthMw.secretFalsy, List.isEmpty_iff, hs]
  unfold AuthMw.decodeClaims
  rw [hfalsy]
  simp only [Bool.false_eq_true, if_false, Option.getD_some]
  rw [if_neg (show ¬((splitDot token).length ≠ 3) from by omega)]
  simp only [hsig, not_true, if_false]
  rw [hparse]
  dsimp only
  by_cases hcond : (truthy (jlookup o (ascii "userId")) && truthy (jlookup o (ascii "email")) &&
      truthy (jlookup o (ascii "exp")) && truthy (jlookup o (ascii "iat"))) = true
  · rw [if_neg (by simp [hcond])]
    constructor
    · intro hres
      exfalso
      split_ifs at hres <;> simp_all
    · intro hr
      exfalso
      apply hr
      simp only [Bool.and_eq_true] at hcond
      exact ⟨hcond.1.1.1, hcond.1.1.2, hcond.1.2, hcond.2⟩
  · rw [if_pos (by simp [hcond])]
    constructor
    · intro _ hand
      apply hcond
      simp only [Bool.and_eq_true]
      exact ⟨⟨⟨hand.1, hand.2.1⟩, hand.2.2.1⟩, hand.2.2.2⟩
    · intro _
      rfl

/-- Witness for C7: the truthiness gate applied to a concrete well-signed token
whose payload has all four fields present but `userId = 0`; both sides of the
equivalence hold. -/
theorem c7_witness :
    ((splitDot (AuthMw.encodeClaims ⟨0, ascii "a", 1, 2⟩ (ascii "k"))).length = 3 ∧
      AuthMw.verifySignature (AuthMw.encodeClaims ⟨0, ascii "a", 1, 2⟩ (ascii "k"))
        (ascii "k") = true ∧
      parseJson (base64UrlDecode
        ((splitDot (AuthMw.encodeClaims ⟨0, ascii "a", 1, 2⟩ (ascii "k"))).getD 1 [])) =
        some (AuthMw.objOfClaims ⟨0, ascii "a", 1, 2⟩)) ∧
    (AuthMw.decodeClaims (some (ascii "k")) 1
        (AuthMw.encodeClaims ⟨0, ascii "a", 1, 2⟩ (ascii "k")) = .error .invalidPayload ↔
      ¬(truthy (jlookup (AuthMw.objOfClaims ⟨0, ascii "a", 1, 2⟩) (ascii "userId")) = true ∧
        truthy (jlookup (AuthMw.objOfClaims ⟨0, ascii "a", 1, 2⟩) (ascii "email")) = true ∧
        truthy (jlookup (AuthMw.objOfClaims ⟨0, ascii "a", 1, 2⟩) (ascii "exp")) = true ∧
        truthy (jlookup (AuthMw.objOfClaims ⟨0, ascii "a", 1, 2⟩) (ascii "iat")) = true)) := by
  have hsp : splitDot (AuthMw.encodeClaims ⟨0, ascii "a", 1, 2⟩ (ascii "k")) =
      [base64UrlEncode AuthMw.jwtHeader,
       base64UrlEncode (AuthMw.payloadJson ⟨0, ascii "a", 1, 2⟩),
       AuthMw.createSignature (base64UrlEncode AuthMw.jwtHeader ++ 46 ::
         base64UrlEncode (AuthMw.payloadJson ⟨0, ascii "a", 1, 2⟩)) (ascii "k")] :=
    splitDot_encodeClaims (show ∀ b ∈ ascii "a", b < 256 by decide)
  have hfmt : (splitDot (AuthMw.encodeClaims ⟨0, ascii "a", 1, 2⟩ (ascii "k"))).length = 3 := by
    rw [hsp]
    rfl
  have hsig : AuthMw.verifySignature (AuthMw.encodeClaims ⟨0, ascii "a", 1, 2⟩ (ascii "k"))
      (ascii "k") = true :=
    verifySignature_encodeClaims (p := ⟨0, ascii "a", 1, 2⟩)
      (show ∀ b ∈ ascii "a", b < 256 by decide)
  have hparse : parseJson (base64UrlDecode
      ((splitDot (AuthMw.encodeClaims ⟨0, ascii "a", 1, 2⟩ (ascii "k"))).getD 1 [])) =
      some (AuthMw.objOfClaims ⟨0, ascii "a", 1, 2⟩) := by
    rw [hsp, show ∀ a b c : Str, ([a, b, c] : List Str).getD 1 [] = b from fun _ _ _ => rfl,
      base64UrlDecode_encode (payloadJson_lt (p := ⟨0, ascii "a", 1, 2⟩)
        (show ∀ b ∈ ascii "a", b < 256 by decide)),
      parseJson_payloadJson]
  exact ⟨⟨hfmt, hsig, hparse⟩,
    c7_truthiness_gate (some (ascii "k")) (ascii "k")
      (AuthMw.encodeClaims ⟨0, ascii "a", 1, 2⟩ (ascii "k")) 1
      (AuthMw.objOfClaims ⟨0, ascii "a", 1, 2⟩) rfl (by decide) hfmt hsig hparse⟩

/-- C7 counterexample: a well-signed token whose parsed payload has all four
required fields *present* (`userId = 0`, `email = "a"`, `iat = 1`, `exp = 2`)
still fails decoding with the invalid-payload error, refuting the claim that
presence of the four fields suffices to pass the validation step. -/
theorem c7_counterexample :
    ((jlookup (AuthMw.objOfClaims ⟨0, ascii "a", 1, 2⟩) (ascii "userId")).isSome = true ∧
      (jlookup (AuthMw.objOfClaims ⟨0, ascii "a", 1, 2⟩) (ascii "email")).isSome = true ∧
      (jlookup (AuthMw.objOfClaims ⟨0, ascii "a", 1, 2⟩) (ascii "iat")).isSome = true ∧
      (jlookup (AuthMw.objOfClaims ⟨0, ascii "a", 1, 2⟩) (ascii "exp")).isSome = true) ∧
    parseJson (base64UrlDecode
      ((splitDot (AuthMw.encodeClaims ⟨0, ascii "a", 1, 2⟩ (ascii "k"))).getD 1 [])) =
      some (AuthMw.objOfClaims ⟨0, ascii "a", 1, 2⟩) ∧
    AuthMw.decodeClaims (some (ascii "k")) 1
      (AuthMw.encodeClaims ⟨0, ascii "a", 1, 2⟩ (ascii "k")) = .error .invalidPayload := by
  refine ⟨⟨by decide, by decide, by decide, by decide⟩, by decide, by decide⟩

/-- Witness for C10: a single-row table whose task belongs to user 2, addressed
by user 7: all three operations fail with their not-found errors. -/
theorem c10_witness :
    Tasks.getTask [⟨1, 2, [], none, none, .low, false, 0, 0⟩] 1 7 = .error .notFound ∧
    Tasks.updateTask [⟨1, 2, [], none, none, .low, false, 0, 0⟩]
      ⟨1, none, none, none, none, none⟩ 7 0 = .error .notFound ∧
    Tasks.deleteTask [⟨1, 2, [], none, none, .low, false, 0, 0⟩] 1 7 = .error .notFound := by
  refine ⟨?_, ?_, ?_⟩
  · exact (c10_owner_isolation [⟨1, 2, [], none, none, .low, false, 0, 0⟩]
      ⟨1, none, none, none, none, none⟩ 1 7 0).2.1
      ⟨⟨1, 2, [], none, none, .low, false, 0, 0⟩, by simp, rfl⟩ (by decide)
  · exact (c10_owner_isolation [⟨1, 2, [], none, none, .low, false, 0, 0⟩]
      ⟨1, none, none, none, none, none⟩ 1 7 0).2.2.2.1
      ⟨⟨1, 2, [], none, none, .low, false, 0, 0⟩, by simp, rfl⟩ (by decide)
  · exact (c10_owner_isolation [⟨1, 2, [], none, none, .low, false, 0, 0⟩]
      ⟨1, none, none, none, none, none⟩ 1 7 0).2.2.2.2.2
      ⟨⟨1, 2, [], none, none, .low, false, 0, 0⟩, by simp, rfl⟩ (by decide)

end TaskTracker
